import Mathlib

/-!
A shallow embedding of mistletoe's `block_token.py` (block-level token
classes of a lightweight markup parser) together with proofs about the
behaviour of its constructors and matchers.

Python strings are modelled as `List Char`; fallible code (Python code
that can raise `IndexError` / `ValueError` / `AttributeError`) returns
`Option`.  Each definition is translated directly from the source file;
the dispatch driver (`block_tokenizer.tokenize`), which is not part of
the source tree, is modelled from the specification and marked as such.
-/

/-- A Python string, modelled as its list of characters. -/
abbrev Line := List Char

/-- Whitespace test used by `str.strip()` for the characters that occur in
this code base (`\x0b`/`\x0c` never appear in markup input lines). -/
def isPySpace (c : Char) : Bool := c = ' ' || c = '\n' || c = '\t' || c = '\r'

/-- Python `s.strip()`: remove leading and trailing whitespace. -/
def stripL (s : Line) : Line :=
  ((s.dropWhile isPySpace).reverse.dropWhile isPySpace).reverse

/-- Python `s.startswith(p)`. -/
def startsW (s p : Line) : Bool :=
  match p, s with
  | [], _ => true
  | _ :: _, [] => false
  | c :: ps, d :: ss => c == d && startsW ss ps

/-- Python `s.split(sep, 1)` when `sep` occurs in `s`: the text before the
first occurrence of `sep` paired with the text after it; `none` when `sep`
does not occur (so a two-name unpacking of the split is fallible). -/
def splitOnce (sep : Line) : Line → Option (Line × Line)
  | [] => none
  | c :: rest =>
    if startsW (c :: rest) sep then some ([], (c :: rest).drop sep.length)
    else (splitOnce sep rest).map (fun p => (c :: p.1, p.2))

/-- Python `s.find(sub) != -1`. -/
def hasSub (s sub : Line) : Bool := (splitOnce sub s).isSome

/-- Fuel-driven worker for `splitAll`.  Fuel exceeding the length of `s` is
always sufficient: every found separator consumes at least one character of
the remainder (the separators used in the source are non-empty). -/
def splitAllF (sep : Line) : Nat → Line → List Line
  | 0, s => [s]
  | fuel + 1, s =>
    match splitOnce sep s with
    | none => [s]
    | some (l, r) => l :: splitAllF sep fuel r

/-- Python `s.split(sep)` for a non-empty separator: split on every
occurrence. -/
def splitAll (sep s : Line) : List Line := splitAllF sep (s.length + 1) s

/-- Python `sep.join(xs)`. -/
def joinSep (sep : Line) (xs : List Line) : Line := List.intercalate sep xs

/-- Python `''.join(xs)`. -/
def concatAll (xs : List Line) : Line := xs.foldr (fun a b => a ++ b) []

/-- Python `s.isdigit()` over the ASCII inputs of this parser: true iff `s`
is non-empty and consists of decimal digits. -/
def isdigits (s : Line) : Bool := !s.isEmpty && s.all Char.isDigit

/-- Python `int(s)` for a string of decimal digits. -/
def natOfDigits (s : Line) : Nat := s.foldl (fun a c => a * 10 + (c.toNat - 48)) 0

/-- Python `s.split(' ', 1)[0]`: the text before the first space when `s`
contains one, otherwise `s` itself (the split returns `[s]`). -/
def firstWord (s : Line) : Line :=
  match splitOnce [' '] s with
  | none => s
  | some p => p.1

/-- Python `s[-n:]`: the last `n` characters (all of `s` when shorter). -/
def lastN (n : Nat) (s : Line) : Line := s.drop (s.length - n)

/-- Python `s[1:-2]`. -/
def slice1m2 (s : Line) : Line := (s.take (s.length - 2)).drop 1

def hashSpace : Line := ['#', ' ']
def spaceHash : Line := [' ', '#']
def dashes3 : Line := ['-', '-', '-']
def eqs3 : Line := ['=', '=', '=']
def fourSpaces : Line := [' ', ' ', ' ', ' ']
def quoteLead : Line := ['>', ' ']
def fence3 : Line := "```".toList
def feSep : Line := [']', ':']

/-! ## Heading -/

structure PyHeading where
  level : Nat
  content : Line
deriving DecidableEq

/-- Text kept from the body of an ATX heading: cut at the first `" #"`
occurrence (`content.split(' #', 1)[0]`) and then strip. -/
def atxContent (rest : Line) : Line :=
  stripL (match splitOnce spaceHash rest with
          | none => rest
          | some p => p.1)

/-- Heading.__init__.  A one-line run is an ATX heading:
`hashes, content = lines[0].split('# ', 1)` (ValueError when `'# '` is
absent), `level = len(hashes) + 1`, `content = content.split(' #', 1)[0].strip()`.
Otherwise the run is a setext heading: `level` is 1 when the last line starts
with `'='`, 2 when it starts with `'-'` (with no other character assigning
`level` at all, so that reading it later raises — modelled as `none`), and
`content` joins the stripped preceding lines with single spaces.  An empty run
raises `IndexError` at `lines[-1]`. -/
def headingInit : List Line → Option PyHeading
  | [] => none
  | [l] =>
    match splitOnce hashSpace l with
    | none => none
    | some (hashes, rest) => some ⟨hashes.length + 1, atxContent rest⟩
  | a :: b :: rest =>
    match ((a :: b :: rest).getLastD []).head? with
    | none => none
    | some c =>
      if c = '=' then some ⟨1, joinSep [' '] ((a :: b :: rest).dropLast.map stripL)⟩
      else if c = '-' then some ⟨2, joinSep [' '] ((a :: b :: rest).dropLast.map stripL)⟩
      else none

/-- Heading.match: a single line that starts with `'#'` and contains `'# '`,
or a run of more than one line whose last line starts with `'---'` or
`'==='`. -/
def matchHeading (lines : List Line) : Bool :=
  (lines.length == 1 && startsW (lines.headD []) ['#']
    && hasSub (lines.headD []) hashSpace)
  || (decide (1 < lines.length)
    && (startsW (lines.getLastD []) dashes3 || startsW (lines.getLastD []) eqs3))

/-! ## Quote -/

/-- Quote.__init__ line preprocessing: strip the `'> '` marker from each
line that carries it, pass other lines through verbatim. -/
def dequote (lines : List Line) : List Line :=
  lines.map (fun l => if startsW l quoteLead then l.drop 2 else l)

/-- Quote.match: `lines[0].startswith('> ')`; raises on an empty run. -/
def matchQuote : List Line → Option Bool
  | [] => none
  | l :: _ => some (startsW l quoteLead)

/-! ## Paragraph -/

/-- Paragraph.__init__ content: `''.join(lines).replace('\n', ' ').strip()`. -/
def paragraphContent (lines : List Line) : Line :=
  stripL ((concatAll lines).map (fun c => if c = '\n' then ' ' else c))

/-! ## BlockCode -/

structure PyBlockCode where
  language : Line
  content : Line
deriving DecidableEq

/-- BlockCode.__init__: fenced form takes the language from the first line
and the content from the lines between the fences; indented form strips four
characters from every line.  (Reads `lines[0]`; the driver only builds
non-empty runs.) -/
def blockCodeInit (lines : List Line) : PyBlockCode :=
  if startsW (lines.headD []) fence3 then
    ⟨(stripL (lines.headD [])).drop 3, concatAll ((lines.drop 1).dropLast)⟩
  else
    ⟨[], concatAll (lines.map (fun l => l.drop 4))⟩

/-- BlockCode.match: a fenced run, or a run in which every line is indented
by four spaces; raises on an empty run (`lines[0]`). -/
def matchBlockCode : List Line → Option Bool
  | [] => none
  | l :: ls =>
    if startsW l fence3 && ((l :: ls).getLastD [] == "```\n".toList) then some true
    else some ((l :: ls).all (fun x => startsW x fourSpaces))

/-! ## List -/

/-- List.has_valid_leader: an unordered marker `'+ '`/`'- '`/`'* '`, or an
ordered marker (the first space-delimited word minus its final character is
all digits).  False for a line that starts with a space. -/
def hasValidLeader (line : Line) : Bool :=
  startsW line ['+', ' '] || startsW line ['-', ' '] || startsW line ['*', ' ']
    || isdigits (firstWord line).dropLast

/-- The `clear_buffer` helper of List.build_list: an empty buffer yields
nothing, a non-empty one yields one group tagged with the `nested` flag. -/
def flushBuf (buf : List Line) (nested : Bool) : List (Bool × List Line) :=
  if buf = [] then [] else [(nested, buf)]

/-- The loop of List.build_list, with the buffer and the `nested` flag as
explicit state.  Each emitted pair is one flushed buffer: tag `true` means
the buffer becomes a nested List, tag `false` a ListItem. -/
def groupStep : List Line → Bool → List Line → List (Bool × List Line)
  | buf, nested, [] => flushBuf buf nested
  | buf, nested, line :: rest =>
    if hasValidLeader line then
      flushBuf buf nested ++ groupStep [line] false rest
    else if startsW line fourSpaces then
      if hasValidLeader (line.drop 4) then
        if nested then groupStep (buf ++ [line.drop 4]) true rest
        else flushBuf buf nested ++ groupStep [line.drop 4] true rest
      else groupStep (buf ++ [line.drop 4]) nested rest
    else groupStep (buf ++ [line]) nested rest

/-- ListItem.__init__ content: join the stripped lines with spaces, then
`line.split(' ', 1)[1].strip()`, defaulting to the empty string when the
split has no second component (`IndexError`). -/
def listItemContent (lines : List Line) : Line :=
  match splitOnce [' '] (joinSep [' '] (lines.map stripL)) with
  | none => []
  | some p => stripL p.2

/-- A child of a List token: a ListItem (already reduced to the text handed
to the span tokenizer) or a nested List. -/
inductive LChild where
  | item (content : Line)
  | sub (children : List LChild) (start : Option Nat)

/-- List.__init__ start value: the first line's leader minus its final
character, when all digits, read as an integer; `None` otherwise.  (The
empty case is unreachable: List is only constructed from non-empty runs and
non-empty buffers.) -/
def listStartOf : List Line → Option Nat
  | [] => none
  | first :: _ =>
    let w := (firstWord first).dropLast
    if isdigits w then some (natOfDigits w) else none

/-- Total length in characters of a list of lines. -/
def totalLen (lines : List Line) : Nat := (lines.map List.length).sum

/-- Fuel-driven List.build_list: group the lines, then build a ListItem from
each plain group and recurse into each nested group.  Any fuel exceeding
`totalLen lines` is sufficient (see `groupStep_totalLen` and
`buildLF_fuel_congr` below): every nested buffer lost at least the four
characters of one stripped indent. -/
def buildLF : Nat → List Line → List LChild
  | 0, _ => []
  | fuel + 1, lines =>
    (groupStep [] false lines).map (fun p =>
      match p with
      | (true, buf) => LChild.sub (buildLF fuel buf) (listStartOf buf)
      | (false, buf) => LChild.item (listItemContent buf))

/-- List.build_list. -/
def buildL (lines : List Line) : List LChild := buildLF (totalLen lines + 1) lines

structure PyListTok where
  children : List LChild
  start : Option Nat

/-- List.__init__. -/
def listInit (lines : List Line) : PyListTok :=
  ⟨buildL lines, listStartOf lines⟩

/-- List.match: the first line, stripped, has a valid leader; raises on an
empty run (`lines[0]`). -/
def matchList : List Line → Option Bool
  | [] => none
  | l :: _ => some (hasValidLeader (stripL l))

/-! ## Table -/

/-- A Python alignment value: `None` (left, and also the `zip_longest` fill
value), `0` (center) or `1` (right). -/
abbrev PyAlign := Option Nat

/-- Table.parse_align: center when the column starts with `':---'` and ends
with `'---:'`, right when it only ends with `'---:'`, `None` otherwise. -/
def parseAlign (column : Line) : PyAlign :=
  if column.take 4 = ":---".toList ∧ lastN 4 column = "---:".toList then some 0
  else if lastN 4 column = "---:".toList then some 1
  else none

/-- Table.split_delimiter: `delimiter[1:-2].split('|')`, each column
stripped. -/
def splitDelimiter (delim : Line) : List Line :=
  (splitAll ['|'] (slice1m2 delim)).map stripL

/-- itertools.zip_longest with the default fill value `None`.  The cell side
is a string, so its fill lives in `Option Line`; the alignment side's value
domain already contains `None`, so its fill is `(none : PyAlign)`. -/
def zipLongest : List Line → List PyAlign → List (Option Line × PyAlign)
  | [], ys => ys.map (fun y => ((none : Option Line), y))
  | x :: xs, [] => (some x, none) :: zipLongest xs []
  | x :: xs, y :: ys => (some x, y) :: zipLongest xs ys

structure TCell where
  align : PyAlign
  content : Line
deriving DecidableEq

/-- Sequence a list of options: `none` as soon as one element is `none`. -/
def seqOpt : List (Option α) → Option (List α)
  | [] => some []
  | x :: xs => do return (← x) :: (← seqOpt xs)

/-- TableRow.__init__ (consumed): `cells = line[1:-2].split('|')`, then one
`TableCell(cell.strip(), align)` per `zip_longest(cells, row_align)` pair.
A fill value on the cell side makes `cell.strip()` raise `AttributeError`
when the row's generator is consumed (modelled as `none`). -/
def tableRowInit (line : Line) (rowAlign : List PyAlign) : Option (List TCell) :=
  seqOpt ((zipLongest (splitAll ['|'] (slice1m2 line)) rowAlign).map
    (fun p => p.1.map (fun c => TCell.mk p.2 (stripL c))))

structure PyTable where
  has_header : Bool
  column_align : List PyAlign
  rows : List (Option (List TCell))

/-- Table.__init__.  `has_header = lines[1].find('---') != -1` raises
`IndexError` on a run of fewer than two lines (modelled as `none`).  With a
header the delimiter line is `lines.pop(1)` — removed from the caller's
list — and parsed into `column_align`; otherwise `column_align = [None]`.
The returned second component is the content of the caller's `lines` list
after construction.  The children generator is kept as a list of per-row
results (a `none` row raises when the lazy generator is consumed). -/
def tableInit : List Line → Option (PyTable × List Line)
  | l0 :: l1 :: rest =>
    if hasSub l1 dashes3 then
      let colAlign := (splitDelimiter l1).map parseAlign
      let remaining := l0 :: rest
      some (⟨true, colAlign, remaining.map (fun l => tableRowInit l colAlign)⟩, remaining)
    else
      some (⟨false, [none], (l0 :: l1 :: rest).map (fun l => tableRowInit l [none])⟩,
        l0 :: l1 :: rest)
  | _ => none

/-- Table.match: every line has `line[0] == '|'` and `line[-2] == '|'`,
with Python's short-circuit `or`: `line[0]` on an empty line and `line[-2]`
on a one-character line starting with `'|'` raise `IndexError` (`none`). -/
def matchTable : List Line → Option Bool
  | [] => some true
  | [] :: _ => none
  | (c :: t) :: rest =>
    if c ≠ '|' then some false
    else if (c :: t).length < 2 then none
    else if (c :: t).getD ((c :: t).length - 2) ' ' ≠ '|' then some false
    else matchTable rest

/-! ## FootnoteBlock / FootnoteEntry -/

/-- FootnoteEntry.__init__: `key, value = line.strip().split(']:')` — a
split on every occurrence of `']:'`; the two-name unpacking raises
`ValueError` unless the split has exactly two parts.  Then `key = key[1:]`
and `value = value.strip()`. -/
def footnoteEntryInit (line : Line) : Option (Line × Line) :=
  match splitAll feSep (stripL line) with
  | [k, v] => some (k.drop 1, stripL v)
  | _ => none

/-- FootnoteBlock.match: every line, stripped, starts with `'['` and
contains `']:'`. -/
def matchFootnoteBlock (lines : List Line) : Bool :=
  lines.all (fun l => startsW (stripL l) ['['] && hasSub (stripL l) feSep)

/-- FootnoteBlock.__init__: one FootnoteEntry per line (the list
comprehension is eager, so a failing entry fails the block). -/
def footnoteBlockInit (lines : List Line) : Option (List (Line × Line)) :=
  seqOpt (lines.map footnoteEntryInit)

/-- A line of a well-formed footnote-entry run: it starts with `'['` (with
no indentation) and contains exactly one `']:'` separator, so that the
entry construction succeeds. -/
def rawFootnoteLine (l : Line) : Bool :=
  startsW l ['['] && ((splitAll feSep (stripL l)).length == 2)

/-- The key of a footnote-entry line: the text between `'['` and `']:'`. -/
def keyOf (l : Line) : Line := ((splitAll feSep (stripL l)).headD []).drop 1

/-- The value of a footnote-entry line: the stripped remainder after
`']:'`. -/
def valOf (l : Line) : Line := stripL ((splitAll feSep (stripL l)).getLastD [])

/-! ## Separator -/

def acceptablePatterns : List Line :=
  ["---\n".toList, "* * *\n".toList, "***\n".toList, "===\n".toList]

/-- Separator.match: a single line that is exactly one of the acceptable
patterns. -/
def matchSeparator (lines : List Line) : Bool :=
  lines.length == 1 && acceptablePatterns.contains (lines.headD [])

/-! ## Token registry -/

/-- The block token classes that can populate the registry.  `custom n`
stands for an externally defined token class. -/
inductive TokenCls where
  | heading | quote | blockCode | separator | list | table | footnoteBlock
  | paragraph
  | custom (n : Nat)
deriving DecidableEq

/-- The module-level `_token_types` list, in source order. -/
def defaultTokenTypes : List TokenCls :=
  [.heading, .quote, .blockCode, .separator, .list, .table, .footnoteBlock]

/-- add_token: `_token_types.insert(1, token_cls)` — Python inserts at
index 1 (at the end when the list is shorter). -/
def addToken (t : TokenCls) (reg : List TokenCls) : List TokenCls :=
  match reg with
  | [] => [t]
  | x :: xs => x :: t :: xs

/-- remove_token: `_token_types.remove(token_cls)` removes the first
occurrence and raises `ValueError` (`none`) when the class is absent. -/
def removeToken (t : TokenCls) : List TokenCls → Option (List TokenCls)
  | [] => none
  | x :: xs => if x = t then some xs else (removeToken t xs).map (x :: ·)

/-- The contents of the caller's `lines` list after the named builder's
constructor returns.  Translated from the source: only `Table.__init__`
mutates its argument (`lines.pop(1)`, reached in the header branch after
the `lines[1]` read); every other constructor only reads `lines`.  When the
constructor raises before mutating, the list is unchanged. -/
def linesAfterInit (t : TokenCls) (lines : List Line) : List Line :=
  match t with
  | .table =>
    match tableInit lines with
    | some p => p.2
    | none => lines
  | _ => lines

/-! ## Dispatch driver and Document

The driver lives in `block_tokenizer.py`, which is not part of the source
tree (only `block_token.py` is); the definitions of this section are
therefore modelled from the specification, as their doc comments state. -/

/-- Modelled from the spec: the missing `block_tokenizer.tokenize` queries
the registered matchers "in registration order; first match wins".  A crash
inside a matcher (an `Option` match function returning `none`) propagates;
`some none` means no registered matcher accepted the run (Paragraph
fallback), `some (some t)` that `t` is the winning matcher. -/
def firstMatchRes (run : List Line) : Option (Option TokenCls) := do
  if matchHeading run then return some .heading
  if (← matchQuote run) then return some .quote
  if (← matchBlockCode run) then return some .blockCode
  if matchSeparator run then return some .separator
  if (← matchList run) then return some .list
  if (← matchTable run) then return some .table
  if matchFootnoteBlock run then return some .footnoteBlock
  return none

/-- Modelled from the spec: a candidate run is acceptable when some
registered matcher accepts it (without crashing). -/
def runMatches (run : List Line) : Bool :=
  match firstMatchRes run with
  | some (some _) => true
  | _ => false

/-- Modelled from the spec: the driver "grows a candidate run line-by-line"
and finds "the maximal extent for the currently-leading matcher" — read
here as the longest prefix of the remaining lines accepted by some matcher;
when no prefix is accepted, the whole remainder is one fallback run. -/
def chooseRun (lines : List Line) : Nat :=
  let best := (List.range lines.length).foldl
    (fun acc i => if runMatches (lines.take (i + 1)) then i + 1 else acc) 0
  if best = 0 then lines.length else best

/-- A constructed block-level node.  Quote children are the result of
re-running the driver on the de-prefixed lines (with no root in scope,
mirroring `Quote.__init__`'s plain `tokenize` call in the source). -/
inductive Block where
  | heading (h : PyHeading)
  | quote (children : List Block)
  | para (content : Line)
  | code (c : PyBlockCode)
  | list (l : PyListTok)
  | table (t : PyTable)
  | fblock (entries : List (Line × Line))
  | sep (lines : List Line)

/-- Modelled from the spec: the driver loop.  Fuel-driven (any fuel above
`totalLen lines + lines.length` is sufficient: each step consumes at least
one line, and a Quote recursion strictly reduces the total character count
because its first line loses its `'> '` marker).  Each step chooses a run,
builds the corresponding node — first winning matcher, Paragraph when none
— and continues with the remaining lines; a crashing construction
propagates as `none`. -/
def tokenizeF : Nat → List Line → Option (List Block)
  | 0, _ => none
  | fuel + 1, lines =>
    match lines with
    | [] => some []
    | _ :: _ =>
      let k := chooseRun lines
      let run := lines.take k
      match firstMatchRes run with
      | none => none
      | some mcls => do
        let b ← (match mcls with
          | none => some (Block.para (paragraphContent run))
          | some .heading => (headingInit run).map Block.heading
          | some .quote => (tokenizeF fuel (dequote run)).map Block.quote
          | some .blockCode => some (Block.code (blockCodeInit run))
          | some .separator => some (Block.sep run)
          | some .list => some (Block.list (listInit run))
          | some .table => (tableInit run).map (fun p => Block.table p.1)
          | some .footnoteBlock => (footnoteBlockInit run).map Block.fblock
          | some .paragraph => some (Block.para (paragraphContent run))
          | some (.custom _) => some (Block.para (paragraphContent run)))
        let bs ← tokenizeF fuel (lines.drop k)
        return b :: bs

/-- Modelled from the spec: Python dict assignment `d[key] = value` on the
insertion-ordered footnote dict — overwrite in place, append when new. -/
def updEntry : List (Line × Line) → Line → Line → List (Line × Line)
  | [], k, v => [(k, v)]
  | (k0, v0) :: rest, k, v =>
    if k0 = k then (k0, v) :: rest else (k0, v0) :: updEntry rest k v

/-- Python `d.get(key)` on the association-list dict model. -/
def lookupFn : List (Line × Line) → Line → Option Line
  | [], _ => none
  | (k0, v0) :: rest, k => if k0 = k then some v0 else lookupFn rest k

/-- Modelled from the spec: FootnoteEntry children "register themselves into
the nearest enclosing Document".  The source's `Quote.__init__` re-enters
`tokenize` with no root, so only blocks built with the Document as root —
the top-level ones — can register; registration order is entry order. -/
def collectFootnotes (blocks : List Block) : List (Line × Line) :=
  blocks.foldl (fun m b =>
    match b with
    | .fblock entries => entries.foldl (fun m e => updEntry m e.1 e.2) m
    | _ => m) []

structure PyDocument where
  footnotes : List (Line × Line)
  children : List Block

/-- Modelled from the spec: Document.__init__ sets up an empty footnote map
and forces the full tokenization (`list(tokenize(lines, root=self))`), after
which the footnote map is populated. -/
def documentInit (lines : List Line) : Option PyDocument :=
  (tokenizeF (totalLen lines + lines.length + 1) lines).map
    (fun bs => ⟨collectFootnotes bs, bs⟩)

/-! ## Claim theorems -/

/-- C2: building a List from `["- a\n", "    - b\n", "- c\n"]` yields exactly
three children in order — ListItem "a", a nested List containing the single
ListItem "b", ListItem "c" — and, in general, a 4-space-indented line with a
valid leader is destemmed, flushes the buffer when it was not already tagged
nested, and tags the new buffer nested. -/
theorem list_nested_build :
    listInit ["- a\n".toList, "    - b\n".toList, "- c\n".toList]
      = ⟨[LChild.item "a".toList,
          LChild.sub [LChild.item "b".toList] none,
          LChild.item "c".toList], none⟩
    ∧ ∀ buf nested line rest,
        startsW line fourSpaces = true →
        hasValidLeader line = false →
        hasValidLeader (line.drop 4) = true →
        groupStep buf nested (line :: rest)
          = if nested then groupStep (buf ++ [line.drop 4]) true rest
            else flushBuf buf nested ++ groupStep [line.drop 4] true rest := by
  constructor
  · rfl
  · intro buf nested line rest h4 hnl hl
    simp [groupStep, hnl, h4, hl]

/-- Witness for the hypotheses of `list_nested_build`: the destem step on
the concrete indented line `"    - b\n"`. -/
theorem list_nested_build_witness :
    startsW "    - b\n".toList fourSpaces = true
    ∧ hasValidLeader "    - b\n".toList = false
    ∧ hasValidLeader ("    - b\n".toList.drop 4) = true
    ∧ groupStep ["- a\n".toList] false ("    - b\n".toList :: [])
      = flushBuf ["- a\n".toList] false ++ groupStep ["    - b\n".toList.drop 4] true [] := by
  refine ⟨by decide, by decide, by decide, ?_⟩
  have h := list_nested_build.2 ["- a\n".toList] false "    - b\n".toList []
    (by decide) (by decide) (by decide)
  simpa using h

/-- C6: inserting a not-already-registered token class at position 1 with
add_token and then removing it with remove_token restores the registry to
exactly the original sequence Heading, Quote, BlockCode, Separator, List,
Table, FootnoteBlock. -/
theorem registry_add_remove_roundtrip :
    ∀ t : TokenCls, t ∉ defaultTokenTypes →
      removeToken t (addToken t defaultTokenTypes) = some defaultTokenTypes := by
  intro t ht
  have hh : ¬ (TokenCls.heading = t) := by
    intro h
    exact ht (h ▸ List.mem_cons_self _ _)
  simp [defaultTokenTypes, addToken, removeToken, hh]

/-- Witness for `registry_add_remove_roundtrip` at the concrete unregistered
class `custom 0`. -/
theorem registry_add_remove_roundtrip_witness :
    defaultTokenTypes.contains (TokenCls.custom 0) = false
    ∧ removeToken (TokenCls.custom 0) (addToken (TokenCls.custom 0) defaultTokenTypes)
      = some defaultTokenTypes :=
  ⟨by decide, registry_add_remove_roundtrip (TokenCls.custom 0) (by decide)⟩

/-- C7 (code bug): `FootnoteEntry.__init__` splits on every `']:'`, not once
on the first: the line `"[1]: foo]: bar\n"` is accepted by
`FootnoteBlock.match` yet its construction raises `ValueError` (three split
fragments fail the two-name unpacking), while a line with a single `']:'`
behaves as the claim describes. -/
theorem footnote_entry_split_bug :
    matchFootnoteBlock ["[1]: foo]: bar\n".toList] = true
    ∧ footnoteEntryInit "[1]: foo]: bar\n".toList = none
    ∧ footnoteEntryInit "[1]: http://example.com\n".toList
        = some ("1".toList, "http://example.com".toList) :=
  ⟨by decide, by decide, by decide⟩

/-- C8: `List.start` is defined iff the leading marker is numeric — the
first line's leader minus its final character, when all digits, read as the
numeric start value — with `start = 1` for `["1. a\n", "2. b\n"]` and an
undefined start for `["- a\n", "- b\n"]`. -/
theorem list_start_iff_numeric :
    (∀ first rest, (listInit (first :: rest)).start
        = (if isdigits (firstWord first).dropLast
           then some (natOfDigits (firstWord first).dropLast) else none))
    ∧ (listInit ["1. a\n".toList, "2. b\n".toList]).start = some 1
    ∧ (listInit ["- a\n".toList, "- b\n".toList]).start = none := by
  refine ⟨fun first rest => rfl, by decide, by decide⟩

/-- C9 counterexample: `Table.__init__` does not leave the input list of
lines unchanged — on `["| a |\n", "| --- |\n", "| b |\n"]` the delimiter
line is popped, so after construction the caller's list has two lines, not
its original three. -/
theorem builder_frame_counterexample :
    linesAfterInit .table ["| a |\n".toList, "| --- |\n".toList, "| b |\n".toList]
      = ["| a |\n".toList, "| b |\n".toList]
    ∧ (linesAfterInit .table ["| a |\n".toList, "| --- |\n".toList, "| b |\n".toList]
        == ["| a |\n".toList, "| --- |\n".toList, "| b |\n".toList]) = false :=
  ⟨by decide, by decide⟩

/-- C9 amended: every builder except Table leaves the caller's list of lines
unchanged; `Table.__init__`, on a run it accepts without raising, removes
the delimiter line (index 1) exactly when it detects a header, and leaves
the list unchanged otherwise. -/
theorem builder_frame_amended :
    (∀ t lines, t ≠ TokenCls.table → linesAfterInit t lines = lines)
    ∧ (∀ l0 l1 rest, linesAfterInit .table (l0 :: l1 :: rest)
        = if hasSub l1 dashes3 then l0 :: rest else l0 :: l1 :: rest) := by
  constructor
  · intro t lines ht
    cases t <;> simp [linesAfterInit] at ht ⊢
  · intro l0 l1 rest
    by_cases h : hasSub l1 dashes3 <;> simp [linesAfterInit, tableInit, h]

/-- Witness for `builder_frame_amended`: the Heading builder on a concrete
line, and the Table builder on a concrete header run. -/
theorem builder_frame_amended_witness :
    linesAfterInit .heading ["x\n".toList] = ["x\n".toList]
    ∧ linesAfterInit .table ["| a |\n".toList, "| --- |\n".toList]
      = if hasSub "| --- |\n".toList dashes3 then ["| a |\n".toList]
        else ["| a |\n".toList, "| --- |\n".toList] :=
  ⟨builder_frame_amended.1 .heading ["x\n".toList] (by decide),
   builder_frame_amended.2 "| a |\n".toList "| --- |\n".toList []⟩

/-- C10 (code bug): `Table.match` accepts the single-line run
`["| a |\n"]`, but `Table.__init__` then reads `lines[1]` and raises
`IndexError`; on every run of at least two lines the constructor succeeds,
and on newline-terminated lines the matcher's `line[-2]` access never goes
out of range. -/
theorem table_single_line_bug :
    matchTable ["| a |\n".toList] = some true
    ∧ tableInit ["| a |\n".toList] = none
    ∧ (∀ l0 l1 rest, (tableInit (l0 :: l1 :: rest)).isSome = true)
    ∧ (∀ lines : List Line, (∀ l ∈ lines, l.getLast? = some '\n') →
        (matchTable lines).isSome = true) := by
  refine ⟨by decide, rfl, ?_, ?_⟩
  · intro l0 l1 rest
    by_cases h : hasSub l1 dashes3 <;> simp [tableInit, h]
  · intro lines h
    induction lines with
    | nil => rfl
    | cons l rest ih =>
      have hl : l.getLast? = some '\n' := h l (List.mem_cons_self _ _)
      obtain ⟨c, t, rfl⟩ : ∃ c t, l = c :: t := by
        cases l with
        | nil => exact Option.noConfusion hl
        | cons c t => exact ⟨c, t, rfl⟩
      by_cases hc : c = '|'
      · subst hc
        cases t with
        | nil =>
          simp [List.getLast?] at hl
        | cons x xs =>
          have hlen : ¬ (('|' :: x :: xs).length < 2) := by
            simp only [List.length_cons]
            omega
          by_cases hd : ('|' :: x :: xs).getD (('|' :: x :: xs).length - 2) ' ' ≠ '|'
          · simp only [matchTable]
            rw [if_neg (by simp), if_neg hlen, if_pos hd]
            rfl
          · simp only [matchTable]
            rw [if_neg (by simp), if_neg hlen, if_neg hd]
            exact ih (fun y hy => h y (List.mem_cons_of_mem _ hy))
      · simp [matchTable, hc]

/-- Witness for the hypothesis-bearing parts of `table_single_line_bug`: a
concrete two-line table constructs, and the matcher is safe on a concrete
newline-terminated run. -/
theorem table_single_line_bug_witness :
    (tableInit ["| x |\n".toList, "| y |\n".toList]).isSome = true
    ∧ (matchTable ["|\n".toList]).isSome = true :=
  ⟨table_single_line_bug.2.2.1 "| x |\n".toList "| y |\n".toList [],
   table_single_line_bug.2.2.2 ["|\n".toList] (by decide)⟩

/-! ## Heading claims (C3, C4) -/

/-- A string that starts with a non-empty pattern starts with the pattern's
first character. -/
theorem startsW_cons_exists {s : Line} {c : Char} {p : Line}
    (h : startsW s (c :: p) = true) : ∃ t, s = c :: t ∧ startsW t p = true := by
  cases s with
  | nil => simp [startsW] at h
  | cons d ss =>
    simp only [startsW, Bool.and_eq_true, beq_iff_eq] at h
    exact ⟨ss, by rw [h.1], h.2⟩

/-- A string whose first character differs from a pattern's first character
does not start with that pattern. -/
theorem startsW_false_of_head_ne {c d : Char} (s q : Line) (h : d ≠ c) :
    startsW (c :: s) (d :: q) = false := by
  simp [startsW, h]

/-- C3 counterexample: `Heading.match` accepts
`["Title\n", "---abc\n"]` although its last line is not entirely `---` or
`===` under any reading (neither stripped nor raw). -/
theorem heading_setext_match_counterexample :
    matchHeading ["Title\n".toList, "---abc\n".toList] = true
    ∧ ((stripL "---abc\n".toList == dashes3) || (stripL "---abc\n".toList == eqs3)
        || ("---abc\n".toList == "---\n".toList)
        || ("---abc\n".toList == "===\n".toList)) = false :=
  ⟨by decide, by decide⟩

/-- C3 amended: for a run of more than one line, `Heading.match` accepts
exactly when the last line starts with `---` or `===` (not only when it is
entirely such a marker), and the constructed Heading has level 1 for a
`===`-led last line, level 2 for a `---`-led one, with content the joined,
stripped preceding lines. -/
theorem heading_setext_amended :
    ∀ lines : List Line, 1 < lines.length →
      (matchHeading lines = true ↔
        (startsW (lines.getLastD []) dashes3 = true ∨ startsW (lines.getLastD []) eqs3 = true))
      ∧ (startsW (lines.getLastD []) eqs3 = true →
          headingInit lines = some ⟨1, joinSep [' '] (lines.dropLast.map stripL)⟩)
      ∧ (startsW (lines.getLastD []) dashes3 = true →
          headingInit lines = some ⟨2, joinSep [' '] (lines.dropLast.map stripL)⟩) := by
  intro lines hlen
  cases lines with
  | nil => simp at hlen
  | cons a t =>
    cases t with
    | nil => simp at hlen
    | cons b rest =>
      refine ⟨?_, ?_, ?_⟩
      · have hA : ((a :: b :: rest).length == 1) = false := by
          simp only [List.length_cons, beq_eq_false_iff_ne, ne_eq]
          omega
        have hB : decide (1 < (a :: b :: rest).length) = true := by
          simp only [List.length_cons, decide_eq_true_eq]
          omega
        simp [matchHeading, hA, hB]
      · intro h
        have he : eqs3 = '=' :: '=' :: '=' :: [] := rfl
        rw [he] at h
        obtain ⟨t2, hlast, _⟩ := startsW_cons_exists h
        simp only [headingInit]
        rw [hlast]
        simp
      · intro h
        have hd : dashes3 = '-' :: '-' :: '-' :: [] := rfl
        rw [hd] at h
        obtain ⟨t2, hlast, _⟩ := startsW_cons_exists h
        simp only [headingInit]
        rw [hlast]
        simp

/-- Witness for `heading_setext_amended`: the concrete setext run
`["Title\n", "===\n"]` builds a level-1 heading. -/
theorem heading_setext_amended_witness :
    1 < (["Title\n".toList, "===\n".toList] : List Line).length
    ∧ headingInit ["Title\n".toList, "===\n".toList]
      = some ⟨1, joinSep [' '] ((["Title\n".toList, "===\n".toList]).dropLast.map stripL)⟩ :=
  ⟨by decide, (heading_setext_amended ["Title\n".toList, "===\n".toList] (by decide)).2.1
    (by decide)⟩

/-- C4 counterexample: the single-line ATX heading `"###x# y\n"` (it starts
with `#` and contains `'# '`, so `Heading.match` accepts it) is built with
level 5 — one more than the length of the text before the first `'# '` —
while the count of its leading `#` characters is 3. -/
theorem heading_atx_counterexample :
    matchHeading ["###x# y\n".toList] = true
    ∧ ((headingInit ["###x# y\n".toList]).map PyHeading.level
        == some (("###x# y\n".toList.takeWhile (fun c => c == '#')).length)) = false
    ∧ (headingInit ["###x# y\n".toList]).map PyHeading.level = some 5
    ∧ ("###x# y\n".toList.takeWhile (fun c => c == '#')).length = 3 :=
  ⟨by decide, by decide, by decide, by decide⟩

/-- Splitting a line made of a run of `n` hashes, a space and a remainder on
the first `'# '` occurrence cuts exactly before the last hash. -/
theorem splitOnce_hashRun :
    ∀ n rest, 0 < n →
      splitOnce hashSpace (List.replicate n '#' ++ ' ' :: rest)
        = some (List.replicate (n - 1) '#', rest) := by
  intro n
  induction n with
  | zero => intro rest h; omega
  | succ m ih =>
    intro rest _
    cases m with
    | zero =>
      simp [splitOnce, startsW, hashSpace]
    | succ k =>
      have h1 : List.replicate (k + 1 + 1) '#' ++ ' ' :: rest
          = '#' :: (List.replicate (k + 1) '#' ++ ' ' :: rest) := by
        simp [List.replicate_succ]
      have h3 : List.replicate (k + 1) '#' ++ ' ' :: rest
          = '#' :: (List.replicate k '#' ++ ' ' :: rest) := by
        simp [List.replicate_succ]
      have h2 : startsW ('#' :: (List.replicate (k + 1) '#' ++ ' ' :: rest)) hashSpace
          = false := by
        rw [h3]
        simp [startsW, hashSpace]
      rw [h1, splitOnce.eq_2, if_neg (by simp [h2]), ih rest (by omega)]
      simp [List.replicate_succ]

/-- C4 amended: for an ATX heading line, the level is one more than the
length of the text before the first `'# '` occurrence; when the line begins
with a run of `n ≥ 1` hashes immediately followed by a space this equals the
count `n` of leading hashes, and the content is the remainder cut at the
first `' #'` and stripped; in particular
`Heading(["### Title ###\n"]).level == 3` with content `"Title"`. -/
theorem heading_atx_amended :
    (∀ n rest, 0 < n →
        headingInit [List.replicate n '#' ++ ' ' :: rest] = some ⟨n, atxContent rest⟩)
    ∧ headingInit ["### Title ###\n".toList] = some ⟨3, "Title".toList⟩ := by
  constructor
  · intro n rest hn
    simp only [headingInit, splitOnce_hashRun n rest hn, List.length_replicate]
    have : n - 1 + 1 = n := by omega
    rw [this]
  · decide

/-- Witness for `heading_atx_amended`: the hash-run case at `n = 3`. -/
theorem heading_atx_amended_witness :
    0 < 3
    ∧ headingInit [List.replicate 3 '#' ++ ' ' :: "Title ###\n".toList]
      = some ⟨3, atxContent "Title ###\n".toList⟩ :=
  ⟨by decide, heading_atx_amended.1 3 "Title ###\n".toList (by decide)⟩

/-! ## Table alignment claims (C5) -/

/-- When the alignment list is at most as long as the cell list, consuming
the zip_longest pairing succeeds (every pair carries a real cell) and every
cell at an index beyond the alignment list receives the fill alignment
`None`. -/
theorem seqOpt_zip_excess :
    ∀ (xs : List Line) (ys : List PyAlign), ys.length ≤ xs.length →
      ∃ cells, seqOpt ((zipLongest xs ys).map
          (fun p => p.1.map (fun c => TCell.mk p.2 (stripL c)))) = some cells
        ∧ cells.length = xs.length
        ∧ ∀ i c, ys.length ≤ i → cells.get? i = some c → c.align = none := by
  intro xs
  induction xs with
  | nil =>
    intro ys hys
    have hy : ys = [] := List.eq_nil_of_length_eq_zero (Nat.le_zero.mp hys)
    subst hy
    refine ⟨[], rfl, rfl, ?_⟩
    intro i c _ hget
    simp at hget
  | cons x xs ih =>
    intro ys hys
    cases ys with
    | nil =>
      obtain ⟨cells, hc, hlen, halign⟩ := ih [] (by simp)
      refine ⟨⟨none, stripL x⟩ :: cells, ?_, by simp [hlen], ?_⟩
      · simp [zipLongest, seqOpt, hc]
      · intro i c _ hget
        cases i with
        | zero =>
          simp only [List.get?_cons_zero, Option.some.injEq] at hget
          rw [← hget]
        | succ j =>
          exact halign j c (Nat.zero_le j) (by simpa using hget)
    | cons y ys =>
      obtain ⟨cells, hc, hlen, halign⟩ :=
        ih ys (by simp only [List.length_cons] at hys; omega)
      refine ⟨⟨y, stripL x⟩ :: cells, ?_, by simp [hlen], ?_⟩
      · simp [zipLongest, seqOpt, hc]
      · intro i c hi hget
        cases i with
        | zero => simp at hi
        | succ j =>
          refine halign j c ?_ (by simpa using hget)
          simp only [List.length_cons] at hi
          omega

/-- C5 counterexample: in the table
`["| a |\n", "| --- |\n", "| 1 | 2 |\n"]` the single declared column is
left-aligned, represented by `None` (`parse_align` on `"---"`), and the
excess second cell of the data row receives exactly the same value `None` —
the "no alignment" sentinel is not distinguishable from left alignment. -/
theorem table_excess_cells_counterexample :
    (tableInit ["| a |\n".toList, "| --- |\n".toList, "| 1 | 2 |\n".toList]).map
        (fun p => (p.1.column_align, p.1.rows))
      = some ([parseAlign dashes3],
          [some [⟨parseAlign dashes3, "a".toList⟩],
           some [⟨parseAlign dashes3, "1".toList⟩, ⟨parseAlign dashes3, "2".toList⟩]])
    ∧ parseAlign dashes3 = none :=
  ⟨rfl, by decide⟩

/-- C5 amended: a TableRow whose cell count exceeds the declared alignment
count constructs without failing, and each excess cell receives the
alignment `None` — the very value that also denotes left alignment, so the
two are not distinguishable. -/
theorem table_excess_cells_amended :
    ∀ line rowAlign, rowAlign.length < (splitAll ['|'] (slice1m2 line)).length →
      ∃ cells, tableRowInit line rowAlign = some cells
        ∧ cells.length = (splitAll ['|'] (slice1m2 line)).length
        ∧ ∀ i c, rowAlign.length ≤ i → cells.get? i = some c → c.align = none := by
  intro line rowAlign h
  exact seqOpt_zip_excess _ _ (Nat.le_of_lt h)

/-- Witness for `table_excess_cells_amended`: the concrete row
`"| 1 | 2 |\n"` against a single declared alignment. -/
theorem table_excess_cells_amended_witness :
    ([(none : PyAlign)].length < (splitAll ['|'] (slice1m2 "| 1 | 2 |\n".toList)).length)
    ∧ ∃ cells, tableRowInit "| 1 | 2 |\n".toList [none] = some cells
        ∧ cells.length = (splitAll ['|'] (slice1m2 "| 1 | 2 |\n".toList)).length
        ∧ ∀ i c, [(none : PyAlign)].length ≤ i → cells.get? i = some c → c.align = none :=
  ⟨by decide, table_excess_cells_amended "| 1 | 2 |\n".toList [none] (by decide)⟩


/-! Sanity checks (concrete evaluations of the embedding). -/

example : stripL " a b \n".toList = "a b".toList := by decide
example : hasValidLeader "- a\n".toList = true := by decide
example : hasValidLeader "    - b\n".toList = false := by decide
example : listItemContent ["- a\n".toList] = "a".toList := by decide
example : splitAll feSep "[1]: foo]: bar".toList
    = ["[1".toList, " foo".toList, " bar".toList] := by decide
example : headingInit ["### Title ###\n".toList] = some ⟨3, "Title".toList⟩ := by decide
example : matchTable ["| a |\n".toList] = some true := by decide
example : tableInit ["| a |\n".toList] = none := rfl
example : tableRowInit "| 1 | 2 |\n".toList [none]
    = some [⟨none, "1".toList⟩, ⟨none, "2".toList⟩] := rfl
example : splitDelimiter "| :--- | ---: |\n".toList = [":---".toList, "---:".toList] := by decide
example : (splitDelimiter "| :--- | ---: |\n".toList).map parseAlign = [none, some 1] := by
  decide
example : (splitDelimiter "| :---: | ---: |\n".toList).map parseAlign = [some 0, some 1] := by
  decide
example : footnoteEntryInit "[1]: http://example.com\n".toList
    = some ("1".toList, "http://example.com".toList) := by decide
example : footnoteEntryInit "[1]: foo]: bar\n".toList = none := by decide
example : removeToken (.custom 0) (addToken (.custom 0) defaultTokenTypes)
    = some defaultTokenTypes := by decide
example : (documentInit ["[1]: http://example.com\n".toList]).map
    (fun d => lookupFn d.footnotes "1".toList)
    = some (some "http://example.com".toList) := rfl

/-! ## Footnote registration (C1) -/

theorem dropWhile_append_last (p : Char → Bool) (xs : Line) (c : Char) (hc : p c = false) :
    List.dropWhile p (xs ++ [c]) = List.dropWhile p xs ++ [c] := by
  induction xs with
  | nil => simp [List.dropWhile, hc]
  | cons x xs ih =>
    by_cases hx : p x <;> simp [List.dropWhile, hx, ih]

/-- Stripping a string that begins with a non-space character keeps that
first character in place. -/
theorem stripL_head (c : Char) (t : Line) (hc : isPySpace c = false) :
    ∃ t2, stripL (c :: t) = c :: t2 := by
  refine ⟨(List.dropWhile isPySpace t.reverse).reverse, ?_⟩
  unfold stripL
  rw [List.dropWhile_cons]
  simp only [hc, Bool.false_eq_true, if_false]
  rw [List.reverse_cons, dropWhile_append_last _ _ _ hc, List.reverse_append]
  simp

/-- The first space-delimited word of a string headed by a non-space
character is headed by the same character. -/
theorem firstWord_head (c : Char) (t : Line) (hc : ¬ (c = ' ')) :
    ∃ w, firstWord (c :: t) = c :: w := by
  have hs : startsW (c :: t) [' '] = false := by
    simp only [startsW, Bool.and_eq_true, beq_iff_eq]
    simp [startsW]
    exact fun h => hc h.symm
  unfold firstWord
  rw [splitOnce.eq_2, if_neg (by simp [hs])]
  cases h : splitOnce [' '] t with
  | none => exact ⟨t, rfl⟩
  | some p => exact ⟨p.1, rfl⟩

/-- Dropping the last character of a bracket-headed word never yields a
digit string. -/
theorem isdigits_bracket_dropLast (w : Line) :
    isdigits (('[' :: w).dropLast) = false := by
  cases w with
  | nil => rfl
  | cons w0 ws =>
    rw [List.dropLast_cons₂]
    simp [isdigits, show ('[' : Char).isDigit = false from rfl]

/-- A stripped footnote line — which is bracket-headed — has no valid list
leader. -/
theorem hasValidLeader_bracket (t : Line) : hasValidLeader ('[' :: t) = false := by
  obtain ⟨w, hw⟩ := firstWord_head '[' t (by decide)
  have h1 : startsW ('[' :: t) ['+', ' '] = false :=
    @startsW_false_of_head_ne '[' '+' t [' '] (by decide)
  have h2 : startsW ('[' :: t) ['-', ' '] = false :=
    @startsW_false_of_head_ne '[' '-' t [' '] (by decide)
  have h3 : startsW ('[' :: t) ['*', ' '] = false :=
    @startsW_false_of_head_ne '[' '*' t [' '] (by decide)
  simp [hasValidLeader, h1, h2, h3, hw, isdigits_bracket_dropLast]

/-- Two lists with different heads are not beq-equal. -/
theorem beq_false_of_head_ne {c d : Char} (p q : Line) (h : ¬ (c = d)) :
    ((c :: p) == (d :: q)) = false := by
  rw [Bool.eq_false_iff]
  intro hb
  have he : c :: p = d :: q := eq_of_beq hb
  injection he with h1 _
  exact h h1

/-- A string split by a non-missing separator into exactly two parts does
contain the separator. -/
theorem hasSub_of_two_parts {sep s : Line} (h : (splitAll sep s).length = 2) :
    hasSub s sep = true := by
  cases hso : splitOnce sep s with
  | some p => simp [hasSub, hso]
  | none =>
    exfalso
    have hs : splitAll sep s = [s] := by
      unfold splitAll
      simp only [splitAllF, hso]
    rw [hs] at h
    simp at h

/-- On a well-formed footnote line the entry construction succeeds and
returns the key/value pair read off the single split. -/
theorem footnoteEntryInit_eq {l : Line} (h : rawFootnoteLine l = true) :
    footnoteEntryInit l = some (keyOf l, valOf l) := by
  have h2 : (splitAll feSep (stripL l)).length = 2 := by
    simp only [rawFootnoteLine, Bool.and_eq_true, beq_iff_eq] at h
    exact h.2
  rcases hs : splitAll feSep (stripL l) with _ | ⟨a, _ | ⟨b, _ | ⟨c, t⟩⟩⟩
  · rw [hs] at h2; simp at h2
  · rw [hs] at h2; simp at h2
  · simp [footnoteEntryInit, keyOf, valOf, hs, List.getLastD]
  · rw [hs] at h2; simp at h2

/-- Sequencing a map of total-on-this-list options yields the map of their
values. -/
theorem seqOpt_map_some {α β : Type} (f : α → Option β) (g : α → β) :
    ∀ (l : List α), (∀ x ∈ l, f x = some (g x)) → seqOpt (l.map f) = some (l.map g) := by
  intro l
  induction l with
  | nil => intro _; rfl
  | cons x xs ih =>
    intro h
    simp [seqOpt, h x (List.mem_cons_self _ _),
      ih (fun y hy => h y (List.mem_cons_of_mem _ hy))]

/-- FootnoteBlock construction on a well-formed run returns all entries in
line order. -/
theorem footnoteBlockInit_eq {lines : List Line}
    (h : ∀ l ∈ lines, rawFootnoteLine l = true) :
    footnoteBlockInit lines = some (lines.map (fun l => (keyOf l, valOf l))) :=
  seqOpt_map_some _ _ lines (fun x hx => footnoteEntryInit_eq (h x hx))

/-- On a run of well-formed footnote lines every registered matcher that
precedes FootnoteBlock refuses the run and FootnoteBlock accepts it, so the
first winning matcher is FootnoteBlock. -/
theorem firstMatchRes_footnote_run (l : Line) (rs : List Line)
    (hall : ∀ x ∈ l :: rs, rawFootnoteLine x = true) :
    firstMatchRes (l :: rs) = some (some TokenCls.footnoteBlock) := by
  have hbr : ∀ x ∈ l :: rs, ∃ t, x = '[' :: t := by
    intro x hx
    have h := hall x hx
    simp only [rawFootnoteLine, Bool.and_eq_true] at h
    obtain ⟨t, ht, -⟩ := startsW_cons_exists h.1
    exact ⟨t, ht⟩
  obtain ⟨tl, hl⟩ := hbr l (List.mem_cons_self _ _)
  have hlast_mem : (l :: rs).getLastD [] ∈ l :: rs := by
    rw [List.getLastD_cons]
    exact List.getLastD_mem_cons _ _
  obtain ⟨tz, hz⟩ := hbr _ hlast_mem
  have hh : startsW ((l :: rs).headD []) ['#'] = false := by
    rw [show (l :: rs).headD [] = l from rfl, hl]
    exact @startsW_false_of_head_ne '[' '#' tl [] (by decide)
  have hd3 : startsW ((l :: rs).getLastD []) dashes3 = false := by
    rw [hz, show dashes3 = ('-' :: '-' :: '-' :: []) from rfl]
    exact @startsW_false_of_head_ne '[' '-' tz _ (by decide)
  have he3 : startsW ((l :: rs).getLastD []) eqs3 = false := by
    rw [hz, show eqs3 = ('=' :: '=' :: '=' :: []) from rfl]
    exact @startsW_false_of_head_ne '[' '=' tz _ (by decide)
  have m1 : matchHeading (l :: rs) = false := by
    unfold matchHeading
    rw [hh, hd3, he3]
    simp
  have m2 : matchQuote (l :: rs) = some false := by
    simp only [matchQuote]
    rw [hl, show quoteLead = ('>' :: ' ' :: []) from rfl,
      @startsW_false_of_head_ne '[' '>' tl [' '] (by decide)]
  have hcode1 : startsW l fence3 = false := by
    rw [hl, show fence3 = fence3.headD ' ' :: fence3.tail from rfl]
    exact startsW_false_of_head_ne _ _ (by decide)
  have hcode2 : startsW l fourSpaces = false := by
    rw [hl, show fourSpaces = (' ' :: ' ' :: ' ' :: ' ' :: []) from rfl]
    exact @startsW_false_of_head_ne '[' ' ' tl _ (by decide)
  have m3 : matchBlockCode (l :: rs) = some false := by
    simp only [matchBlockCode]
    rw [hcode1]
    simp [List.all_cons, hcode2]
  have hmem : ('[' :: tl) ∉ acceptablePatterns := by
    intro hm
    simp only [acceptablePatterns, List.mem_cons, List.not_mem_nil, or_false] at hm
    rcases hm with h | h | h | h
    · rw [show "---\n".toList = ('-' :: '-' :: '-' :: '\n' :: []) from rfl] at h
      injection h with h1 h2
      exact absurd h1 (by decide)
    · rw [show "* * *\n".toList = ('*' :: ' ' :: '*' :: ' ' :: '*' :: '\n' :: []) from rfl] at h
      injection h with h1 h2
      exact absurd h1 (by decide)
    · rw [show "***\n".toList = ('*' :: '*' :: '*' :: '\n' :: []) from rfl] at h
      injection h with h1 h2
      exact absurd h1 (by decide)
    · rw [show "===\n".toList = ('=' :: '=' :: '=' :: '\n' :: []) from rfl] at h
      injection h with h1 h2
      exact absurd h1 (by decide)
  have m4 : matchSeparator (l :: rs) = false := by
    simp only [matchSeparator]
    rw [show (l :: rs).headD [] = l from rfl, hl]
    simp [List.contains, hmem]
  have m5 : matchList (l :: rs) = some false := by
    simp only [matchList]
    rw [hl]
    obtain ⟨t2, ht2⟩ := stripL_head '[' tl (by decide)
    rw [ht2, hasValidLeader_bracket]
  have m6 : matchTable (l :: rs) = some false := by
    rw [hl]
    simp [matchTable, show ¬ (('[' : Char) = '|') from by decide]
  have m7 : matchFootnoteBlock (l :: rs) = true := by
    simp only [matchFootnoteBlock, List.all_eq_true]
    intro x hx
    obtain ⟨tx, hxz⟩ := hbr x hx
    obtain ⟨t2, ht2⟩ := stripL_head '[' tx (by decide)
    have hsub : hasSub (stripL x) feSep = true := by
      apply hasSub_of_two_parts
      have h := hall x hx
      simp only [rawFootnoteLine, Bool.and_eq_true, beq_iff_eq] at h
      exact h.2
    rw [hxz, ht2] at hsub ⊢
    simp [startsW, hsub]
  simp [firstMatchRes, m1, m2, m3, m4, m5, m6, m7]

/-- On a run accepted in full, the driver's run choice is the whole
remainder. -/
theorem chooseRun_full {l : Line} {rs : List Line}
    (hm : runMatches (l :: rs) = true) : chooseRun (l :: rs) = (l :: rs).length := by
  unfold chooseRun
  simp only [List.length_cons]
  rw [List.range_succ, List.foldl_append, List.foldl_cons, List.foldl_nil]
  have ht : (l :: rs).take (rs.length + 1) = l :: rs := by
    simp
  rw [ht]
  simp [hm]

theorem lookupFn_updEntry_self (m : List (Line × Line)) (k v : Line) :
    lookupFn (updEntry m k v) k = some v := by
  induction m with
  | nil => simp [updEntry, lookupFn]
  | cons e rest ih =>
    obtain ⟨k0, v0⟩ := e
    by_cases h : k0 = k
    · simp [updEntry, h, lookupFn]
    · simp [updEntry, h, lookupFn, ih]

theorem lookupFn_updEntry_ne (m : List (Line × Line)) (k v k2 : Line) (h : ¬ (k = k2)) :
    lookupFn (updEntry m k v) k2 = lookupFn m k2 := by
  induction m with
  | nil => simp [updEntry, lookupFn, h]
  | cons e rest ih =>
    obtain ⟨k0, v0⟩ := e
    by_cases h0 : k0 = k
    · subst h0
      simp [updEntry, lookupFn, h]
    · by_cases h2 : k0 = k2
      · subst h2
        simp [updEntry, lookupFn, h0]
      · simp [updEntry, h0, lookupFn, h2, ih]

theorem lookupFn_foldl_not_mem (es : List (Line × Line)) :
    ∀ (m : List (Line × Line)) (k : Line), k ∉ es.map Prod.fst →
      lookupFn (es.foldl (fun m e => updEntry m e.1 e.2) m) k = lookupFn m k := by
  induction es with
  | nil => intro m k _; rfl
  | cons e tl ih =>
    intro m k hk
    simp only [List.map_cons, List.mem_cons, not_or] at hk
    rw [List.foldl_cons, ih _ k hk.2, lookupFn_updEntry_ne _ _ _ _ (fun h => hk.1 h.symm)]

/-- With pairwise-distinct keys, folding dict assignments over the entry
list leaves every entry retrievable at its own key. -/
theorem lookupFn_foldl_mem (es : List (Line × Line)) :
    ∀ (m : List (Line × Line)), (es.map Prod.fst).Nodup →
      ∀ e ∈ es, lookupFn (es.foldl (fun m e => updEntry m e.1 e.2) m) e.1 = some e.2 := by
  induction es with
  | nil =>
    intro m _ e he
    cases he
  | cons e0 tl ih =>
    intro m hnd e he
    simp only [List.map_cons, List.nodup_cons] at hnd
    rw [List.foldl_cons]
    rcases List.mem_cons.mp he with rfl | hmem
    · rw [lookupFn_foldl_not_mem tl _ _ hnd.1, lookupFn_updEntry_self]
    · exact ih _ hnd.2 e hmem

/-- The driver on a run made entirely of well-formed footnote lines builds
exactly one FootnoteBlock holding all entries in line order. -/
theorem tokenizeF_footnote_run {l : Line} {rs : List Line}
    (hall : ∀ x ∈ l :: rs, rawFootnoteLine x = true) :
    tokenizeF (totalLen (l :: rs) + (l :: rs).length + 1) (l :: rs)
      = some [Block.fblock ((l :: rs).map (fun x => (keyOf x, valOf x)))] := by
  have hfm := firstMatchRes_footnote_run l rs hall
  have hrm : runMatches (l :: rs) = true := by
    simp [runMatches, hfm]
  have hcr := chooseRun_full hrm
  have hnil : tokenizeF (totalLen (l :: rs) + (l :: rs).length) [] = some [] := by
    rw [show totalLen (l :: rs) + (l :: rs).length
        = totalLen (l :: rs) + rs.length + 1 from by
      simp only [List.length_cons]
      omega]
    rfl
  simp only [tokenizeF, hcr, List.take_length, List.drop_length, hfm,
    footnoteBlockInit_eq hall, Option.map_some', hnil, Option.bind_some]
  rfl

/-- C1: constructing a Document over a footnote-entry run (every raw line
bracket-headed and carrying exactly one `']:'`, with pairwise-distinct
keys) populates the Document's footnote map by the time construction
returns: every entry's key is mapped to that entry's value.  In particular
the single line `"[1]: http://example.com\n"` yields
`document.footnotes["1"] == "http://example.com"`. -/
theorem document_footnotes_registered :
    (∀ lines : List Line, lines ≠ [] →
      (∀ l ∈ lines, rawFootnoteLine l = true) →
      (lines.map keyOf).Nodup →
      ∀ l ∈ lines,
        (documentInit lines).map (fun d => lookupFn d.footnotes (keyOf l))
          = some (some (valOf l)))
    ∧ (documentInit ["[1]: http://example.com\n".toList]).map
        (fun d => lookupFn d.footnotes "1".toList)
      = some (some "http://example.com".toList) := by
  constructor
  · intro lines hne hall hnd l hl
    obtain ⟨l0, rs, rfl⟩ : ∃ l0 rs, lines = l0 :: rs := by
      cases lines with
      | nil => exact absurd rfl hne
      | cons a b => exact ⟨a, b, rfl⟩
    unfold documentInit
    rw [tokenizeF_footnote_run hall]
    simp only [Option.map_some', Option.some.injEq]
    have hcf : collectFootnotes [Block.fblock ((l0 :: rs).map (fun x => (keyOf x, valOf x)))]
        = ((l0 :: rs).map (fun x => (keyOf x, valOf x))).foldl
            (fun m e => updEntry m e.1 e.2) [] := rfl
    rw [hcf]
    have hkeys : (((l0 :: rs).map (fun x => (keyOf x, valOf x))).map Prod.fst).Nodup := by
      simpa [List.map_map, Function.comp] using hnd
    have hmem : (keyOf l, valOf l) ∈ (l0 :: rs).map (fun x => (keyOf x, valOf x)) :=
      List.mem_map_of_mem _ hl
    exact lookupFn_foldl_mem _ _ hkeys _ hmem
  · rfl

/-- Witness for `document_footnotes_registered`: the concrete one-line run
of the claim. -/
theorem document_footnotes_registered_witness :
    (["[1]: http://example.com\n".toList] : List Line).isEmpty = false
    ∧ (["[1]: http://example.com\n".toList] : List Line).all rawFootnoteLine = true
    ∧ ((["[1]: http://example.com\n".toList] : List Line).map keyOf).Nodup
    ∧ (documentInit ["[1]: http://example.com\n".toList]).map
        (fun d => lookupFn d.footnotes (keyOf "[1]: http://example.com\n".toList))
      = some (some (valOf "[1]: http://example.com\n".toList)) :=
  ⟨by decide, by decide, by decide,
   document_footnotes_registered.1 ["[1]: http://example.com\n".toList]
     (by decide) (by decide) (by decide) "[1]: http://example.com\n".toList
     (List.mem_cons_self _ _)⟩

/-! ## Fuel sufficiency for the list builder

The next lemmas justify the fuel bound baked into `buildL`: every buffer
that the grouping pass tags nested lost at least the four characters of one
stripped indent, so recursion depth is bounded by the total character count
and `buildLF` computes the same tree for any fuel above it. -/

theorem totalLen_nil : totalLen [] = 0 := rfl

theorem totalLen_cons (x : Line) (xs : List Line) :
    totalLen (x :: xs) = x.length + totalLen xs := by
  simp [totalLen]

theorem totalLen_append (xs ys : List Line) :
    totalLen (xs ++ ys) = totalLen xs + totalLen ys := by
  simp [totalLen]

theorem startsW_length {s p : Line} (h : startsW s p = true) : p.length ≤ s.length := by
  induction p generalizing s with
  | nil => simp
  | cons c ps ih =>
    cases s with
    | nil => simp [startsW] at h
    | cons d ss =>
      simp only [startsW, Bool.and_eq_true] at h
      simp only [List.length_cons]
      exact Nat.succ_le_succ (ih h.2)

/-- Character-count invariant of the grouping pass: a buffer flushed with
the nested tag accounts for strictly fewer characters than the input it was
collected from (it lost at least one four-space indent). -/
theorem groupStep_totalLen :
    ∀ (lines buf : List Line) (nested : Bool) (b : Bool) (out : List Line),
      (b, out) ∈ groupStep buf nested lines →
      totalLen out + (if b then 4 else 0)
        ≤ totalLen buf + totalLen lines + (if nested then 4 else 0) := by
  intro lines
  induction lines with
  | nil =>
    intro buf nested b out hm
    simp only [groupStep, flushBuf] at hm
    by_cases hb : buf = [] <;> simp [hb] at hm
    obtain ⟨rfl, rfl⟩ := hm
    simp [totalLen_nil]
  | cons line rest ih =>
    intro buf nested b out hm
    simp only [groupStep] at hm
    by_cases h1 : hasValidLeader line = true
    · rw [if_pos h1] at hm
      rcases List.mem_append.mp hm with hf | hr
      · simp only [flushBuf] at hf
        by_cases hb : buf = [] <;> simp [hb] at hf
        obtain ⟨rfl, rfl⟩ := hf
        simp only [totalLen_cons]
        omega
      · have hih := ih [line] false b out hr
        simp [totalLen_cons, totalLen_nil] at hih ⊢
        omega
    · rw [if_neg h1] at hm
      by_cases h2 : startsW line fourSpaces = true
      · rw [if_pos h2] at hm
        have hlen4 : 4 ≤ line.length := by
          have := startsW_length h2
          simpa [fourSpaces] using this
        by_cases h3 : hasValidLeader (line.drop 4) = true
        · rw [if_pos h3] at hm
          by_cases h4 : nested = true
          · subst h4
            rw [if_pos rfl] at hm
            have hih := ih (buf ++ [line.drop 4]) true b out hm
            simp [totalLen_append, totalLen_cons, totalLen_nil,
              List.length_drop] at hih ⊢
            omega
          · rw [if_neg h4] at hm
            rw [Bool.not_eq_true] at h4
            subst h4
            rcases List.mem_append.mp hm with hf | hr
            · simp only [flushBuf] at hf
              by_cases hb : buf = [] <;> simp [hb] at hf
              obtain ⟨rfl, rfl⟩ := hf
              simp only [totalLen_cons]
              omega
            · have hih := ih [line.drop 4] true b out hr
              simp [totalLen_cons, totalLen_nil, List.length_drop] at hih ⊢
              omega
        · rw [if_neg h3] at hm
          have hih := ih (buf ++ [line.drop 4]) nested b out hm
          simp [totalLen_append, totalLen_cons, totalLen_nil,
            List.length_drop] at hih ⊢
          omega
      · rw [if_neg h2] at hm
        have hih := ih (buf ++ [line]) nested b out hm
        simp [totalLen_append, totalLen_cons, totalLen_nil] at hih ⊢
        omega

/-- Any two fuel values above the total character count make `buildLF`
agree, so the fuel chosen by `buildL` is sufficient. -/
theorem buildLF_fuel_congr :
    ∀ (f1 : Nat) (lines : List Line) (f2 : Nat),
      totalLen lines < f1 → totalLen lines < f2 →
      buildLF f1 lines = buildLF f2 lines := by
  intro f1
  induction f1 with
  | zero => intro lines f2 h1 _; omega
  | succ g ih =>
    intro lines f2 h1 h2
    cases f2 with
    | zero => omega
    | succ g2 =>
      simp only [buildLF]
      apply List.map_congr_left
      intro p hp
      obtain ⟨b, buf⟩ := p
      cases b with
      | false => rfl
      | true =>
        have hb := groupStep_totalLen lines [] false true buf hp
        simp [totalLen_nil] at hb
        show LChild.sub (buildLF g buf) (listStartOf buf)
            = LChild.sub (buildLF g2 buf) (listStartOf buf)
        rw [ih buf g2 (by omega) (by omega)]
